import Mathlib

/-!
Verification of the investment-calendar core (daily_calendar.py): the
canonical event model, the change detector, the lifecycle manager
(archive / rotate), the snapshot store and the first-run orchestration.

Python strings are modelled as Lean `String`, compared lexicographically by
code point exactly as Python compares `str`.  Optional (`None`-able) fields
are `Option`.  Machine-independent library calls that the code relies on are
modelled as explicit function parameters:
  * `md5_8 : String → String` models `hashlib.md5(s.encode()).hexdigest()[:8]`
    (a fixed, process-independent function whose outputs are 8 hex chars);
  * `pyHash : String → Int` models the builtin `hash()` on `str`, which is
    salted per process (`PYTHONHASHSEED`), so two independent runs see two
    different such functions.
File I/O becomes explicit state passing; a fallible file read becomes
`Option (Except String α)` (`none` = file absent, `Except.error` = the read,
the JSON parse or the constructor raised, `Except.ok` = parsed content).
-/

namespace InvestmentCalendar

/-- Lexicographic code-point comparison of character lists; the order Python
uses on `str`. -/
def chLt : List Char → List Char → Bool
  | [], [] => false
  | [], _ :: _ => true
  | _ :: _, [] => false
  | a :: as, b :: bs =>
    if a.toNat < b.toNat then true
    else if b.toNat < a.toNat then false
    else chLt as bs

/-- Python `a < b` on strings. -/
def pyLt (a b : String) : Bool := chLt a.data b.data

/-- Python `a <= b` on strings (total order, so `a <= b` iff `not (b < a)`). -/
def pyLe (a b : String) : Bool := !(pyLt b a)

/-- Python `s.replace('-', '')`: every occurrence of the one-character
pattern `-` is removed. -/
def stripDashes (s : String) : String := ⟨s.data.filter (fun c => c ≠ '-')⟩

/-- Python `s.split(sep)` for a one-character separator. -/
def splitChar (sep : Char) : List Char → List (List Char)
  | [] => [[]]
  | c :: cs =>
    let r := splitChar sep cs
    if c = sep then [] :: r
    else
      match r with
      | [] => [[c]]
      | x :: xs => (c :: x) :: xs

/-- Python f-string rendering of a str-or-None value (`None` prints as
`"None"`). -/
def fstr : Option String → String
  | none => "None"
  | some s => s

/-- `StandardizedEvent` (daily_calendar.py, dataclass): the canonical event
model, with the dataclass defaults.  `concepts` entries model the
`{code, name}` dicts; `raw_data` models the opaque source payload as a
string-keyed dict whose values are rendered as strings. -/
structure StandardizedEvent where
  platform : String
  event_id : String
  original_id : String
  event_date : String
  event_time : Option String := none
  event_datetime : Option String := none
  title : String := ""
  content : Option String := none
  category : Option String := none
  importance : Option Int := none
  country : Option String := none
  city : Option String := none
  stocks : Option (List String) := none
  concepts : Option (List (Option String × Option String)) := none
  themes : Option (List String) := none
  data_status : String := "ACTIVE"
  is_new : Bool := false
  discovery_date : String := ""
  raw_data : Option (List (String × String)) := none
  created_at : String := ""
deriving DecidableEq, Repr

/-- `StandardizedEvent.__post_init__`: fill `None` collections with empty
ones and empty `created_at` / `discovery_date` with the ambient clock
(`now` = `datetime.now().isoformat()`, `today` = the current date). -/
def postInit (now today : String) (e : StandardizedEvent) : StandardizedEvent :=
  { e with
    stocks := some (e.stocks.getD [])
    concepts := some (e.concepts.getD [])
    themes := some (e.themes.getD [])
    raw_data := some (e.raw_data.getD [])
    created_at := if e.created_at = "" then now else e.created_at
    discovery_date := if e.discovery_date = "" then today else e.discovery_date }

/-- Python `event.raw_data.get(k, default)` (after `__post_init__` the dict
is never `None`; a `None` field behaves as the empty dict here). -/
def rawGet (r : Option (List (String × String))) (k d : String) : String :=
  ((r.getD []).lookup k).getD d

/-- `ChangeDetectionEngine._generate_event_key`: the per-platform dedup key.
`md5_8` models the truncated md5 hex digest used for `tonghuashun`. -/
def generate_event_key (md5_8 : String → String) (e : StandardizedEvent) : String :=
  if e.platform = "cls" then
    e.original_id ++ "_" ++ e.event_date ++ "_" ++ fstr e.category
  else if e.platform = "jiuyangongshe" then
    e.original_id ++ "_" ++ e.event_date
  else if e.platform = "tonghuashun" then
    e.event_date ++ "_" ++ md5_8 e.title
  else if e.platform = "investing" then
    rawGet e.raw_data "event_attr_id" "" ++ "_" ++ e.event_date ++ "_" ++ fstr e.event_time
  else if e.platform = "eastmoney" then
    e.original_id ++ "_" ++ e.event_date
  else
    e.event_id

/-- `ChangeDetectionEngine._has_content_changed`: any of the five compared
fields differs. -/
def has_content_changed (prev curr : StandardizedEvent) : Bool :=
  prev.title ≠ curr.title ||
  prev.event_datetime ≠ curr.event_datetime ||
  prev.importance ≠ curr.importance ||
  prev.content ≠ curr.content ||
  prev.country ≠ curr.country

/-- A Python `dict` as an association list: insertion order is the order of
first insertion of each key, the stored value is the most recent one. -/
abbrev PyDict := List (String × StandardizedEvent)

/-- Python `d[k] = v` on the dict model. -/
def dictInsert (m : PyDict) (k : String) (v : StandardizedEvent) : PyDict :=
  if m.any (fun p => p.1 = k) then
    m.map (fun p => if p.1 = k then (k, v) else p)
  else m ++ [(k, v)]

/-- Python `k in d` on the dict model. -/
def dictContains (m : PyDict) (k : String) : Bool := m.any (fun p => p.1 = k)

/-- Python `d[k]` (as an `Option`) on the dict model. -/
def dictFind (m : PyDict) (k : String) : Option StandardizedEvent :=
  (m.find? (fun p => p.1 = k)).map (fun p => p.2)

/-- The dict comprehension `{key(e): e for e in events}`. -/
def buildMap (keyf : StandardizedEvent → String) (events : List StandardizedEvent) : PyDict :=
  events.foldl (fun m e => dictInsert m (keyf e) e) []

/-- The per-platform change record returned by
`ChangeDetectionEngine._detect_platform_changes`. -/
structure PlatformChanges where
  new_events : List StandardizedEvent
  updated_events : List StandardizedEvent
  cancelled_events : List StandardizedEvent
deriving DecidableEq, Repr

/-- `ChangeDetectionEngine._detect_platform_changes`: build key→event dicts
for both snapshots, then classify.  `today` is the run date
(`datetime.now().strftime('%Y-%m-%d')`). -/
def detect_platform_changes (keyf : StandardizedEvent → String) (today : String)
    (previous_events current_events : List StandardizedEvent) : PlatformChanges :=
  let prev_map := buildMap keyf previous_events
  let curr_map := buildMap keyf current_events
  let new_events := (curr_map.filter (fun kc =>
    pyLe today kc.2.event_date && !(dictContains prev_map kc.1))).map (fun kc => kc.2)
  let updated_events := (curr_map.filter (fun kc =>
    pyLe today kc.2.event_date &&
      (match dictFind prev_map kc.1 with
       | some p => has_content_changed p kc.2
       | none => false))).map (fun kc => kc.2)
  let cancelled_events := (prev_map.filter (fun kp =>
    pyLe today kp.2.event_date && !(dictContains curr_map kp.1))).map (fun kp => kp.2)
  ⟨new_events, updated_events, cancelled_events⟩

/-- The loop body of `ChangeDetectionEngine._mark_changes_in_new_data`:
annotate one event of the current snapshot against the key sets of the
classified new and updated events. -/
def markOne (keyf : StandardizedEvent → String) (today : String)
    (newKeys updatedKeys : List String) (e : StandardizedEvent) : StandardizedEvent :=
  if newKeys.contains (keyf e) then
    { e with is_new := true, discovery_date := today }
  else if updatedKeys.contains (keyf e) then
    { e with discovery_date := today }
  else e

/-- `ChangeDetectionEngine._mark_changes_in_new_data`: the enriched copy of
the current snapshot (the Python code mutates the events in place; the
effect on the list is this map). -/
def mark_changes_in_new_data (keyf : StandardizedEvent → String) (today : String)
    (current_events : List StandardizedEvent) (changes : PlatformChanges) :
    List StandardizedEvent :=
  current_events.map
    (markOne keyf today (changes.new_events.map keyf) (changes.updated_events.map keyf))

/-- One entry of the Change Report's `top_new_events` list
(`ChangeDetectionEngine._generate_change_report`). -/
structure TopNewEvent where
  platform : String
  date : String
  title : String
  importance : Option Int
  country : Option String
deriving DecidableEq, Repr

/-- The sort key `lambda x: x.importance or 0` (`None`, like `0`, is falsy
and yields `0`). -/
def importanceKey (e : StandardizedEvent) : Int := e.importance.getD 0

/-- Insert into an importance-descending list, after every element whose key
is strictly larger: the insertion step of a stable descending sort. -/
def insertByImportanceDesc (e : StandardizedEvent) :
    List StandardizedEvent → List StandardizedEvent
  | [] => [e]
  | x :: xs =>
    if importanceKey e < importanceKey x then x :: insertByImportanceDesc e xs
    else e :: x :: xs

/-- `all_new_events.sort(key=lambda x: x.importance or 0, reverse=True)`:
Python's sort is stable, and a stable descending sort is extensionally
unique, so this insertion sort computes exactly the sorted list. -/
def sortByImportanceDesc : List StandardizedEvent → List StandardizedEvent
  | [] => []
  | x :: xs => insertByImportanceDesc x (sortByImportanceDesc xs)

/-- The Change Report built by
`ChangeDetectionEngine._generate_change_report` (the parts with specified
content: the three totals and `top_new_events`; `all_changes` is the
platform→changes dict in its insertion order). -/
structure ChangeReport where
  total_new : Nat
  total_updated : Nat
  total_cancelled : Nat
  top_new_events : List TopNewEvent
deriving DecidableEq, Repr

/-- `ChangeDetectionEngine._generate_change_report`: totals, then the new
events of all platforms in report order, sorted by importance descending
(stable), truncated to 10 and projected to the five reported fields. -/
def generate_change_report (all_changes : List (String × PlatformChanges)) : ChangeReport :=
  let all_new_events := (all_changes.map (fun pc => pc.2.new_events)).flatten
  let sorted := sortByImportanceDesc all_new_events
  { total_new := (all_changes.map (fun pc => pc.2.new_events.length)).sum
    total_updated := (all_changes.map (fun pc => pc.2.updated_events.length)).sum
    total_cancelled := (all_changes.map (fun pc => pc.2.cancelled_events.length)).sum
    top_new_events := (sorted.take 10).map (fun e =>
      ⟨e.platform, e.event_date, e.title, e.importance, e.country⟩) }

/-- The persisted per-platform snapshot record
(`DataStorage.save_platform_data` / `DataLifecycleManager._save_platform_data_to_path`). -/
structure SnapshotFileData where
  platform : String
  total_events : Nat
  data_status : String
  date_type : String
  last_updated : String
  immutable : Bool
  events : List StandardizedEvent
deriving DecidableEq, Repr

/-- `DataStorage.save_platform_data`: the record written for one platform
(`now` is `datetime.now().isoformat()`); a full overwrite of that
platform's file at the tier. -/
def save_platform_data (now platform : String) (events : List StandardizedEvent) :
    SnapshotFileData :=
  { platform := platform
    total_events := events.length
    data_status := "ACTIVE"
    date_type := "FUTURE"
    last_updated := now
    immutable := false
    events := events }

/-- `load_platform_data`: `none` = the file does not exist, `Except.error` =
the read, the JSON parse or `StandardizedEvent(**d)` raised (the body's
`try/except` turns that into `[]`), `Except.ok` = the parsed record, whose
event dicts go through the dataclass constructor and hence
`__post_init__` with the load-time clock. -/
def load_platform_data (now today : String)
    (file : Option (Except String SnapshotFileData)) : List StandardizedEvent :=
  match file with
  | none => []
  | some (Except.error _) => []
  | some (Except.ok data) => data.events.map (postInit now today)

/-- The two active tiers of one platform's storage. -/
structure PlatformTiers where
  current : List StandardizedEvent
  previous : List StandardizedEvent
deriving DecidableEq, Repr

/-- `DataLifecycleManager.rotate_future_data_only` for one platform: the
previous tier is wiped (`shutil.rmtree`) and rebuilt from the current
snapshot's strictly-future events only (`event.event_date > archive_date`);
the old previous tier is never read. -/
def rotate_future_data_only (archive_date : String) (s : PlatformTiers) : PlatformTiers :=
  { s with previous := s.current.filter (fun e => pyLt archive_date e.event_date) }

/-- The dedup loop of `DataLifecycleManager._append_to_archive`: keep the
first occurrence of each `event_id` (`seen_ids` accumulates the ids kept so
far). -/
def dedupByIdAux (seen : List String) : List StandardizedEvent → List StandardizedEvent
  | [] => []
  | e :: es =>
    if seen.contains e.event_id then dedupByIdAux seen es
    else e :: dedupByIdAux (e.event_id :: seen) es

/-- `DataLifecycleManager._append_to_archive` on one (platform, year,
month) archive file: existing events first, then the incoming ones, with
later duplicates (by `event_id`) dropped. -/
def append_to_archive (existing incoming : List StandardizedEvent) : List StandardizedEvent :=
  dedupByIdAux [] (existing ++ incoming)

/-- `DataLifecycleManager.archive_specific_date_data` for one platform and
its (year, month) archive bucket: the current snapshot's events dated
exactly `target_date` are marked `ARCHIVED` and merged into the archive;
when there are none the archive file is not touched. -/
def archive_specific_date_data (target_date : String)
    (current archive : List StandardizedEvent) : List StandardizedEvent :=
  let target_date_events := (current.filter (fun e => e.event_date = target_date)).map
    (fun e => { e with data_status := "ARCHIVED" })
  if target_date_events.isEmpty then archive
  else append_to_archive archive target_date_events

/-- `first_run_marker.txt` (`DailyTaskScheduler._create_first_run_marker`). -/
structure FirstRunMarker where
  first_run_date : String
  first_run_time : String
  status : String
deriving DecidableEq, Repr

/-- The on-disk artifacts `DailyTaskScheduler.run_first_time` can touch:
the per-platform current tier, the first-run marker, and the change-report
file for the run date (absent until a detection writes it). -/
structure SchedulerState where
  currentData : List (String × List StandardizedEvent)
  marker : Option FirstRunMarker
  changeReport : Option ChangeReport
deriving Repr

/-- `DailyTaskScheduler._is_first_run`: the current tier holds no platform
data file. -/
def is_first_run (s : SchedulerState) : Bool := s.currentData.isEmpty

/-- `DailyTaskScheduler.run_first_time`: refuse when active data exists;
otherwise persist the collected `future_data` directly as the current tier
(`DataStorage.save_all_data`) and write the first-run marker.  No diff is
computed and no change report is written.  Returns the method's boolean
result with the resulting storage state. -/
def run_first_time (today now : String)
    (future_data : List (String × List StandardizedEvent)) (s : SchedulerState) :
    Bool × SchedulerState :=
  if is_first_run s then
    (true, { s with
      currentData := future_data
      marker := some ⟨today, now, "completed"⟩ })
  else (false, s)

/-- `FutureDataCollector._extract_date_fixed`: `None` and `""` give `""`;
otherwise the part before the first space. -/
def extract_date_fixed (date_str : Option String) : String :=
  match date_str with
  | none => ""
  | some s =>
    if s = "" then ""
    else if s.data.contains ' ' then
      match splitChar ' ' s.data with
      | [] => ""
      | part :: _ => ⟨part⟩
    else s

/-- `FutureDataCollector._extract_time_fixed`: the part after the first
space when it exists and is not `"00:00:00"`, else `None`. -/
def extract_time_fixed (datetime_str : Option String) : Option String :=
  match datetime_str with
  | none => none
  | some s =>
    if s = "" then none
    else if s.data.contains ' ' then
      match splitChar ' ' s.data with
      | _ :: part :: _ => if (⟨part⟩ : String) ≠ "00:00:00" then some ⟨part⟩ else none
      | _ => none
    else none

/-- A raw source item as a string-keyed JSON object whose values are
rendered as strings (the shape the eastmoney processors read). -/
abbrev SourceItem := List (String × String)

/-- Python `item.get(k)` on a raw source item. -/
def itemGet (item : SourceItem) (k : String) : Option String := item.lookup k

/-- Python `item.get(k, '')` on a raw source item. -/
def itemGetD (item : SourceItem) (k : String) : String := (item.lookup k).getD ""

/-- `FutureDataCollector._process_eastmoney_xsap` (休市安排, market
closures).  `pyHash` models the builtin `hash()` the code applies to the
holiday name: a per-process salted function. -/
def process_eastmoney_xsap (pyHash : String → Int) (xsap_data : List SourceItem)
    (start_date end_date : String) : List StandardizedEvent :=
  (xsap_data.filterMap (fun item =>
    if item.isEmpty then none
    else
      let item_date := extract_date_fixed (itemGet item "SDATE")
      if item_date ≠ "" && pyLe start_date item_date && pyLe item_date end_date then
        some
          { platform := "eastmoney"
            event_id := "em_xsap_" ++ stripDashes item_date ++ "_" ++
              toString (pyHash (itemGetD item "HOLIDAY"))
            original_id := "xsap_" ++ itemGetD item "MKT" ++ "_" ++ item_date
            event_date := item_date
            event_time := extract_time_fixed (itemGet item "SDATE")
            event_datetime := itemGet item "SDATE"
            title := itemGetD item "MKT" ++ " - " ++ itemGetD item "HOLIDAY"
            category := some "休市安排"
            importance := some 2
            country := some "中国"
            raw_data := some item }
      else none))

/-- `FutureDataCollector._process_eastmoney_hsgg` (A股公告, announcements).
`pyHash` models the builtin `hash()` the code applies to the announcement
title. -/
def process_eastmoney_hsgg (pyHash : String → Int) (hsgg_data : List SourceItem)
    (start_date end_date : String) : List StandardizedEvent :=
  (hsgg_data.filterMap (fun item =>
    if item.isEmpty then none
    else
      let item_date := extract_date_fixed (itemGet item "NOTICE_DATE")
      if item_date ≠ "" && pyLe start_date item_date && pyLe item_date end_date then
        some
          { platform := "eastmoney"
            event_id := "em_hsgg_" ++ itemGetD item "SECUCODE" ++ "_" ++
              stripDashes item_date ++ "_" ++ toString (pyHash (itemGetD item "TITLE"))
            original_id := itemGetD item "SECUCODE"
            event_date := item_date
            title := itemGetD item "SECURITY_NAME_ABBR" ++ " - " ++ itemGetD item "TITLE"
            content := some (itemGetD item "TITLE")
            category := some "A股公告"
            importance := some 3
            country := some "中国"
            stocks := some (match itemGet item "SECURITY_CODE" with
              | some c => if c ≠ "" then [c] else []
              | none => [])
            raw_data := some item }
      else none))

/-- One day of the tonghuashun monthly feed, with the fields
`_get_tonghuashun_month_data` reads: the day's date, the event rows (each a
list whose first entry is the title), and the per-row concept dicts. -/
structure ThsDay where
  date : Option String
  events : List (List String)
  concept : List (List (Option String × Option String))
deriving Repr

/-- The inner loop of `_get_tonghuashun_month_data` over one day's
enumerated event rows. -/
def thsDayEvents (md5_8 : String → String) (date : String) (day : ThsDay) :
    List StandardizedEvent :=
  day.events.enum.filterMap (fun ie =>
    match ie.2 with
    | [] => none
    | t :: _ =>
      let title := t
      let title_hash := md5_8 title
      let concept_info := (day.concept.drop ie.1).headD []
      some
        { platform := "tonghuashun"
          event_id := "ths_" ++ stripDashes date ++ "_" ++ toString ie.1 ++ "_" ++ title_hash
          original_id := date ++ "_" ++ toString ie.1
          event_date := date
          title := title
          importance := some 3
          country := some "中国"
          concepts := some (concept_info.map (fun c => (c.1, c.2)))
          -- `raw_data={"event": ..., "concept": ...}` carries non-string values
          -- the string-dict payload model cannot hold; the payload is opaque to
          -- every operation under verification (only `investing` keys read it)
          raw_data := some [] })

/-- `FutureDataCollector._get_tonghuashun_month_data`, from the parsed JSONP
body: days with a falsy or out-of-range date are skipped; each remaining
day's event rows become events whose `event_id` carries the row index and
truncated title hash. -/
def get_tonghuashun_month_data (md5_8 : String → String) (days : List ThsDay)
    (start_date end_date : String) : List StandardizedEvent :=
  (days.filterMap (fun day =>
    match day.date with
    | none => none
    | some d =>
      if d = "" || pyLt d start_date || pyLt end_date d then none
      else some (thsDayEvents md5_8 d day))).flatten

/-! Concrete sample data used to instantiate hypotheses and to evaluate the
operations on closed inputs. -/

/-- A concrete stand-in for the truncated md5 hex digest: pad with zeros and
keep 8 characters (like the real digest, its outputs have length 8 and the
same input always gives the same output). -/
def md5fix8 (s : String) : String := ⟨(s.data ++ ['0', '0', '0', '0', '0', '0', '0', '0']).take 8⟩

/-- A constant stand-in for the truncated md5 hex digest (also 8 characters
on every input). -/
def md5const (_ : String) : String := "00000000"

/-- Sample event A(key1, d1) of the diff scenario. -/
def evA : StandardizedEvent :=
  { platform := "jiuyangongshe", event_id := "a", original_id := "id1"
    event_date := "2025-06-02", title := "A" }

/-- Sample event A′(key1, d1): same key and same compared content as `evA`
(it differs only in a field the detector does not compare). -/
def evA' : StandardizedEvent := { evA with created_at := "2025-06-01T08:00:00" }

/-- Sample event B(key2, d2) of the diff scenario. -/
def evB : StandardizedEvent :=
  { platform := "jiuyangongshe", event_id := "b", original_id := "id2"
    event_date := "2025-06-03", title := "B" }

/-- Sample event C(key3, d3) of the diff scenario. -/
def evC : StandardizedEvent :=
  { platform := "jiuyangongshe", event_id := "c", original_id := "id3"
    event_date := "2025-06-04", title := "C" }

/-- A tonghuashun feed day listing the same title twice. -/
def thsDupDay : ThsDay :=
  { date := some "2025-06-05", events := [["AAA"], ["AAA"]], concept := [] }

/-- A concrete eastmoney market-closure item. -/
def xsapItem0 : SourceItem :=
  [("SDATE", "2025-01-01 00:00:00"), ("HOLIDAY", "NewYear"), ("MKT", "A")]

/-- A concrete eastmoney announcement item. -/
def hsggItem0 : SourceItem :=
  [("NOTICE_DATE", "2025-03-10 00:00:00"), ("SECUCODE", "000001.SZ"),
   ("SECURITY_CODE", "000001"), ("SECURITY_NAME_ABBR", "PAB"), ("TITLE", "T1")]

/-- A fully defaulted canonical event (collections filled, clock fields
non-empty), as `__post_init__` leaves every constructed event. -/
def evD : StandardizedEvent :=
  { platform := "cls", event_id := "d", original_id := "id4"
    event_date := "2025-07-01", title := "D"
    stocks := some [], concepts := some [], themes := some []
    raw_data := some [], created_at := "2025-06-01T09:00:00"
    discovery_date := "2025-06-01" }

end InvestmentCalendar

namespace InvestmentCalendar

/-! Lemmas about the Python-dict model. -/

theorem dictContains_eq_true_iff (m : PyDict) (k : String) :
    dictContains m k = true ↔ k ∈ m.map Prod.fst := by
  simp [dictContains, List.any_eq_true, List.mem_map]

theorem dictInsert_of_not_contains (m : PyDict) (k : String) (v : StandardizedEvent)
    (h : dictContains m k = false) : dictInsert m k v = m ++ [(k, v)] := by
  unfold dictInsert
  unfold dictContains at h
  simp [h]

theorem foldl_dictInsert_of_nodup (keyf : StandardizedEvent → String) :
    ∀ (l : List StandardizedEvent) (m : PyDict),
      (m.map Prod.fst ++ l.map keyf).Nodup →
      l.foldl (fun m e => dictInsert m (keyf e) e) m = m ++ l.map (fun e => (keyf e, e)) := by
  intro l
  induction l with
  | nil => intro m _; simp
  | cons e es ih =>
    intro m h
    have hnotin : keyf e ∉ m.map Prod.fst := by
      intro hmem
      rcases (List.nodup_append.mp h) with ⟨_, _, hdisj⟩
      exact hdisj hmem (by simp)
    have hcont : dictContains m (keyf e) = false := by
      rcases hb : dictContains m (keyf e) with _ | _
      · rfl
      · exact absurd ((dictContains_eq_true_iff m (keyf e)).mp hb) hnotin
    have hins : dictInsert m (keyf e) e = m ++ [(keyf e, e)] :=
      dictInsert_of_not_contains m (keyf e) e hcont
    have hnodup' : ((m ++ [(keyf e, e)]).map Prod.fst ++ es.map keyf).Nodup := by
      simpa [List.append_assoc] using h
    calc (e :: es).foldl (fun m e => dictInsert m (keyf e) e) m
        = es.foldl (fun m e => dictInsert m (keyf e) e) (m ++ [(keyf e, e)]) := by
          simp [List.foldl_cons, hins]
      _ = (m ++ [(keyf e, e)]) ++ es.map (fun e => (keyf e, e)) := ih _ hnodup'
      _ = m ++ (e :: es).map (fun e => (keyf e, e)) := by simp

theorem buildMap_of_nodup (keyf : StandardizedEvent → String)
    (l : List StandardizedEvent) (h : (l.map keyf).Nodup) :
    buildMap keyf l = l.map (fun e => (keyf e, e)) := by
  simpa using foldl_dictInsert_of_nodup keyf l [] (by simpa using h)

theorem dictContains_map_pair (keyf : StandardizedEvent → String)
    (l : List StandardizedEvent) (k : String) :
    dictContains (l.map (fun e => (keyf e, e))) k = l.any (fun e => keyf e = k) := by
  unfold dictContains
  induction l with
  | nil => rfl
  | cons e es ih => simp [ih]

theorem dictFind_map_pair (keyf : StandardizedEvent → String)
    (l : List StandardizedEvent) (k : String) :
    dictFind (l.map (fun e => (keyf e, e))) k = l.find? (fun e => keyf e = k) := by
  unfold dictFind
  rw [List.find?_map]
  have : ((fun p : String × StandardizedEvent => decide (p.1 = k)) ∘
      (fun e => (keyf e, e))) = fun e => decide (keyf e = k) := rfl
  rw [this]
  rcases h : List.find? (fun e => decide (keyf e = k)) l with _ | e <;> simp [h]

/-! The change detector, rewritten over the original snapshots when the
dedup keys are unique within each snapshot. -/

theorem detect_new_eq (keyf : StandardizedEvent → String) (today : String)
    (previous current : List StandardizedEvent)
    (hp : (previous.map keyf).Nodup) (hc : (current.map keyf).Nodup) :
    (detect_platform_changes keyf today previous current).new_events =
      current.filter (fun c =>
        pyLe today c.event_date && !(previous.any (fun p => keyf p = keyf c))) := by
  unfold detect_platform_changes
  rw [buildMap_of_nodup keyf previous hp, buildMap_of_nodup keyf current hc]
  simp only [List.filter_map, List.map_map]
  have hpred : ∀ c : StandardizedEvent,
      ((fun kc : String × StandardizedEvent =>
          pyLe today kc.2.event_date && !(dictContains (previous.map (fun e => (keyf e, e))) kc.1)) ∘
        (fun e => (keyf e, e))) c
      = (pyLe today c.event_date && !(previous.any (fun p => keyf p = keyf c))) := by
    intro c
    simp [Function.comp, dictContains_map_pair]
  rw [funext hpred]
  have hcomp : ((fun kc : String × StandardizedEvent => kc.2) ∘ fun e => (keyf e, e)) =
      fun e => e := rfl
  rw [hcomp, List.map_id']

theorem detect_updated_eq (keyf : StandardizedEvent → String) (today : String)
    (previous current : List StandardizedEvent)
    (hp : (previous.map keyf).Nodup) (hc : (current.map keyf).Nodup) :
    (detect_platform_changes keyf today previous current).updated_events =
      current.filter (fun c =>
        pyLe today c.event_date &&
          (match previous.find? (fun p => keyf p = keyf c) with
           | some p => has_content_changed p c
           | none => false)) := by
  unfold detect_platform_changes
  rw [buildMap_of_nodup keyf previous hp, buildMap_of_nodup keyf current hc]
  simp only [List.filter_map, List.map_map]
  have hpred : ∀ c : StandardizedEvent,
      ((fun kc : String × StandardizedEvent =>
          pyLe today kc.2.event_date &&
            (match dictFind (previous.map (fun e => (keyf e, e))) kc.1 with
             | some p => has_content_changed p kc.2
             | none => false)) ∘
        (fun e => (keyf e, e))) c
      = (pyLe today c.event_date &&
          (match previous.find? (fun p => keyf p = keyf c) with
           | some p => has_content_changed p c
           | none => false)) := by
    intro c
    simp [Function.comp, dictFind_map_pair]
  rw [funext hpred]
  have hcomp : ((fun kc : String × StandardizedEvent => kc.2) ∘ fun e => (keyf e, e)) =
      fun e => e := rfl
  rw [hcomp, List.map_id']

theorem detect_cancelled_eq (keyf : StandardizedEvent → String) (today : String)
    (previous current : List StandardizedEvent)
    (hp : (previous.map keyf).Nodup) (hc : (current.map keyf).Nodup) :
    (detect_platform_changes keyf today previous current).cancelled_events =
      previous.filter (fun p =>
        pyLe today p.event_date && !(current.any (fun c => keyf c = keyf p))) := by
  unfold detect_platform_changes
  rw [buildMap_of_nodup keyf previous hp, buildMap_of_nodup keyf current hc]
  simp only [List.filter_map, List.map_map]
  have hpred : ∀ p : StandardizedEvent,
      ((fun kp : String × StandardizedEvent =>
          pyLe today kp.2.event_date && !(dictContains (current.map (fun e => (keyf e, e))) kp.1)) ∘
        (fun e => (keyf e, e))) p
      = (pyLe today p.event_date && !(current.any (fun c => keyf c = keyf p))) := by
    intro p
    simp [Function.comp, dictContains_map_pair]
  rw [funext hpred]
  have hcomp : ((fun kc : String × StandardizedEvent => kc.2) ∘ fun e => (keyf e, e)) =
      fun e => e := rfl
  rw [hcomp, List.map_id']

theorem find?_key_eq_some_iff (keyf : StandardizedEvent → String)
    {previous : List StandardizedEvent} (hp : (previous.map keyf).Nodup)
    (e p : StandardizedEvent) :
    previous.find? (fun q => keyf q = keyf e) = some p ↔
      p ∈ previous ∧ keyf p = keyf e := by
  constructor
  · intro h
    refine ⟨List.mem_of_find?_eq_some h, ?_⟩
    have := List.find?_some h
    simpa using this
  · rintro ⟨hmem, hkey⟩
    have hsome : (previous.find? (fun q => keyf q = keyf e)).isSome = true :=
      List.find?_isSome.mpr ⟨p, hmem, by simpa using hkey⟩
    rcases hq : previous.find? (fun q => keyf q = keyf e) with _ | q
    · rw [hq] at hsome; simp at hsome
    · have hqmem := List.mem_of_find?_eq_some hq
      have hqkey : keyf q = keyf e := by simpa using List.find?_some hq
      have : q = p := List.inj_on_of_nodup_map hp hqmem hmem (hqkey.trans hkey.symm)
      rw [this]

theorem mem_new_iff (keyf : StandardizedEvent → String) (today : String)
    (previous current : List StandardizedEvent)
    (hp : (previous.map keyf).Nodup) (hc : (current.map keyf).Nodup)
    (e : StandardizedEvent) :
    e ∈ (detect_platform_changes keyf today previous current).new_events ↔
      e ∈ current ∧ pyLe today e.event_date = true ∧
        ∀ p ∈ previous, keyf p ≠ keyf e := by
  rw [detect_new_eq keyf today previous current hp hc, List.mem_filter]
  simp [List.any_eq_true, and_assoc]

theorem mem_updated_iff (keyf : StandardizedEvent → String) (today : String)
    (previous current : List StandardizedEvent)
    (hp : (previous.map keyf).Nodup) (hc : (current.map keyf).Nodup)
    (e : StandardizedEvent) :
    e ∈ (detect_platform_changes keyf today previous current).updated_events ↔
      e ∈ current ∧ pyLe today e.event_date = true ∧
        ∃ p ∈ previous, keyf p = keyf e ∧ has_content_changed p e = true := by
  rw [detect_updated_eq keyf today previous current hp hc, List.mem_filter]
  simp only [Bool.and_eq_true, and_assoc]
  refine and_congr_right (fun _ => and_congr_right (fun _ => ?_))
  rcases hq : previous.find? (fun q => keyf q = keyf e) with _ | q
  · simp only [hq]
    constructor
    · intro h; exact absurd h (by simp)
    · rintro ⟨p, hmem, hkey, _⟩
      have : previous.find? (fun q => keyf q = keyf e) = some p :=
        (find?_key_eq_some_iff keyf hp e p).mpr ⟨hmem, hkey⟩
      rw [hq] at this; cases this
  · simp only [hq]
    have hqprop := (find?_key_eq_some_iff keyf hp e q).mp hq
    constructor
    · intro h; exact ⟨q, hqprop.1, hqprop.2, h⟩
    · rintro ⟨p, hmem, hkey, hch⟩
      have : previous.find? (fun q => keyf q = keyf e) = some p :=
        (find?_key_eq_some_iff keyf hp e p).mpr ⟨hmem, hkey⟩
      rw [hq] at this
      cases this
      exact hch

theorem mem_cancelled_iff (keyf : StandardizedEvent → String) (today : String)
    (previous current : List StandardizedEvent)
    (hp : (previous.map keyf).Nodup) (hc : (current.map keyf).Nodup)
    (e : StandardizedEvent) :
    e ∈ (detect_platform_changes keyf today previous current).cancelled_events ↔
      e ∈ previous ∧ pyLe today e.event_date = true ∧
        ∀ c ∈ current, keyf c ≠ keyf e := by
  rw [detect_cancelled_eq keyf today previous current hp hc, List.mem_filter]
  simp [List.any_eq_true, and_assoc]

/-- C1: for every platform (that is, every dedup-key function, in particular
`generate_event_key` at each platform) and every pair of snapshots with
per-snapshot-unique keys, the detector classifies a future-dated
(`event_date >= run date`) current event as new exactly when its key is
absent from the previous snapshot, as updated exactly when its key is
present there and one of the five compared fields differs, classifies a
future-dated previous event as cancelled exactly when its key is absent
from the current snapshot, and emits no record for a key present in both
with all five fields equal; in particular, on previous = {A(key1,d1),
B(key2,d2)} and current = {A′(key1,d1, unchanged), C(key3,d3)} with
run_date ≤ min(d1,d2,d3), the result is new=[C], updated=[],
cancelled=[B]. -/
theorem detect_platform_changes_classification :
    (∀ (keyf : StandardizedEvent → String) (today : String)
       (previous current : List StandardizedEvent),
       (previous.map keyf).Nodup → (current.map keyf).Nodup →
       ∀ e : StandardizedEvent,
         (e ∈ (detect_platform_changes keyf today previous current).new_events ↔
            e ∈ current ∧ pyLe today e.event_date = true ∧
              ∀ p ∈ previous, keyf p ≠ keyf e) ∧
         (e ∈ (detect_platform_changes keyf today previous current).updated_events ↔
            e ∈ current ∧ pyLe today e.event_date = true ∧
              ∃ p ∈ previous, keyf p = keyf e ∧ has_content_changed p e = true) ∧
         (e ∈ (detect_platform_changes keyf today previous current).cancelled_events ↔
            e ∈ previous ∧ pyLe today e.event_date = true ∧
              ∀ c ∈ current, keyf c ≠ keyf e) ∧
         ((∃ p ∈ previous, keyf p = keyf e ∧ has_content_changed p e = false) →
            e ∉ (detect_platform_changes keyf today previous current).new_events ∧
            e ∉ (detect_platform_changes keyf today previous current).updated_events))
    ∧ detect_platform_changes (generate_event_key md5fix8) "2025-06-01"
        [evA, evB] [evA', evC] = ⟨[evC], [], [evB]⟩ := by
  constructor
  · intro keyf today previous current hp hc e
    refine ⟨mem_new_iff keyf today previous current hp hc e,
            mem_updated_iff keyf today previous current hp hc e,
            mem_cancelled_iff keyf today previous current hp hc e, ?_⟩
    rintro ⟨p, hpmem, hpkey, hpunch⟩
    constructor
    · intro hmem
      have h := (mem_new_iff keyf today previous current hp hc e).mp hmem
      exact (h.2.2 p hpmem) hpkey
    · intro hmem
      have h := (mem_updated_iff keyf today previous current hp hc e).mp hmem
      rcases h.2.2 with ⟨q, hqmem, hqkey, hqch⟩
      have : q = p := List.inj_on_of_nodup_map hp hqmem hpmem (hqkey.trans hpkey.symm)
      rw [this] at hqch
      rw [hpunch] at hqch
      cases hqch
  · decide

/-- Witness for C1: the key-uniqueness hypotheses hold on the concrete
scenario, and the theorem applied there characterises C's membership among
the new events. -/
theorem detect_platform_changes_classification_witness :
    (([evA, evB].map (generate_event_key md5fix8)).Nodup ∧
     ([evA', evC].map (generate_event_key md5fix8)).Nodup) ∧
    (evC ∈ (detect_platform_changes (generate_event_key md5fix8) "2025-06-01"
        [evA, evB] [evA', evC]).new_events ↔
      evC ∈ [evA', evC] ∧ pyLe "2025-06-01" evC.event_date = true ∧
        ∀ p ∈ [evA, evB],
          generate_event_key md5fix8 p ≠ generate_event_key md5fix8 evC) :=
  ⟨⟨by decide, by decide⟩,
    (detect_platform_changes_classification.1 (generate_event_key md5fix8)
      "2025-06-01" [evA, evB] [evA', evC] (by decide) (by decide) evC).1⟩

/-- C2: after `rotate_future_data_only(boundary)`, the previous-baseline
tier is exactly the pre-rotation current snapshot's events with
`event_date > boundary` (membership stated as the filter identity and as an
iff), contains no event with `event_date <= boundary`, and is a full
replacement: the old baseline has no influence on the new one. -/
theorem rotate_future_data_only_complete (d : String) (s : PlatformTiers) :
    ((rotate_future_data_only d s).previous =
       s.current.filter (fun e => pyLt d e.event_date)) ∧
    (∀ e : StandardizedEvent,
       e ∈ (rotate_future_data_only d s).previous ↔
         e ∈ s.current ∧ pyLt d e.event_date = true) ∧
    (∀ e ∈ (rotate_future_data_only d s).previous, pyLe e.event_date d = false) ∧
    (∀ p : List StandardizedEvent,
       (rotate_future_data_only d { s with previous := p }).previous =
         (rotate_future_data_only d s).previous) := by
  refine ⟨rfl, ?_, ?_, fun p => rfl⟩
  · intro e
    exact List.mem_filter
  · intro e hmem
    have h := (List.mem_filter.mp hmem).2
    simp only [pyLe, h, Bool.not_true]

/-- Witness for C2: on a concrete pre-rotation state, B (dated after the
boundary) is in the rotated baseline, and the theorem yields that its date
is not `<=` the boundary. -/
theorem rotate_future_data_only_complete_witness :
    (evB ∈ (rotate_future_data_only "2025-06-01" ⟨[evA, evB], [evC]⟩).previous) ∧
    pyLe evB.event_date "2025-06-01" = false :=
  ⟨by decide,
    (rotate_future_data_only_complete "2025-06-01" ⟨[evA, evB], [evC]⟩).2.2.1 evB (by decide)⟩

/-- C8: loading a platform snapshot is fail-soft: an absent file and a
failed read or parse (the body's `try/except`) both yield the empty list;
the function is total, so no error propagates. -/
theorem load_platform_data_fail_soft (now today : String) :
    (load_platform_data now today none = []) ∧
    (∀ msg : String, load_platform_data now today (some (Except.error msg)) = []) :=
  ⟨rfl, fun _ => rfl⟩

/-- `__post_init__` is the identity on an event whose collection fields are
already filled and whose clock fields are non-empty. -/
theorem postInit_eq_self (now today : String) (e : StandardizedEvent)
    (h1 : e.stocks ≠ none) (h2 : e.concepts ≠ none) (h3 : e.themes ≠ none)
    (h4 : e.raw_data ≠ none) (h5 : e.created_at ≠ "") (h6 : e.discovery_date ≠ "") :
    postInit now today e = e := by
  obtain ⟨pl, eid, oid, ed, et, edt, ti, co, ca, im, cu, ci, st, cp, th, ds, isn, dd, rd, cr⟩ := e
  simp only at h1 h2 h3 h4 h5 h6
  rcases st with _ | s
  · exact absurd rfl h1
  rcases cp with _ | c
  · exact absurd rfl h2
  rcases th with _ | t
  · exact absurd rfl h3
  rcases rd with _ | r
  · exact absurd rfl h4
  simp [postInit, h5, h6]

/-- C10: saving a list of already-defaulted events (collections filled,
clock fields non-empty) and loading it back from the written record
returns the same events, field for field and in order — the load-time
`__post_init__` changes nothing on them. -/
theorem save_load_round_trip (saveNow loadNow loadToday platform : String)
    (events : List StandardizedEvent)
    (h : ∀ e ∈ events, e.stocks ≠ none ∧ e.concepts ≠ none ∧ e.themes ≠ none ∧
      e.raw_data ≠ none ∧ e.created_at ≠ "" ∧ e.discovery_date ≠ "") :
    load_platform_data loadNow loadToday
      (some (Except.ok (save_platform_data saveNow platform events))) = events := by
  unfold load_platform_data save_platform_data
  simp only
  calc events.map (postInit loadNow loadToday)
      = events.map (fun e => e) := by
        apply List.map_congr_left
        intro e hmem
        rcases h e hmem with ⟨h1, h2, h3, h4, h5, h6⟩
        exact postInit_eq_self loadNow loadToday e h1 h2 h3 h4 h5 h6
    _ = events := List.map_id' events

/-- Witness for C10: the defaulted-fields hypothesis holds for a concrete
snapshot, and the round trip returns it unchanged. -/
theorem save_load_round_trip_witness :
    (∀ e ∈ [evD], e.stocks ≠ none ∧ e.concepts ≠ none ∧ e.themes ≠ none ∧
      e.raw_data ≠ none ∧ e.created_at ≠ "" ∧ e.discovery_date ≠ "") ∧
    load_platform_data "2025-06-02T07:00:00" "2025-06-02"
      (some (Except.ok (save_platform_data "2025-06-01T10:00:00" "cls" [evD]))) = [evD] :=
  ⟨by decide,
    save_load_round_trip "2025-06-01T10:00:00" "2025-06-02T07:00:00" "2025-06-02" "cls"
      [evD] (by decide)⟩

/-! Lemmas about the archive dedup loop. -/

theorem dedupByIdAux_cons_mem (seen : List String) (e : StandardizedEvent)
    (es : List StandardizedEvent) (h : e.event_id ∈ seen) :
    dedupByIdAux seen (e :: es) = dedupByIdAux seen es := by
  simp [dedupByIdAux, h]

theorem dedupByIdAux_cons_not_mem (seen : List String) (e : StandardizedEvent)
    (es : List StandardizedEvent) (h : e.event_id ∉ seen) :
    dedupByIdAux seen (e :: es) = e :: dedupByIdAux (e.event_id :: seen) es := by
  simp [dedupByIdAux, h]

theorem dedupByIdAux_find? :
    ∀ (seen : List String) (l : List StandardizedEvent) (i : String),
      i ∉ seen →
      (dedupByIdAux seen l).find? (fun e => e.event_id = i) =
        l.find? (fun e => e.event_id = i) := by
  intro seen l
  induction l generalizing seen with
  | nil => intro i _; rfl
  | cons e es ih =>
    intro i hni
    by_cases hs : e.event_id ∈ seen
    · have hne : ¬ (e.event_id = i) := fun heq => hni (heq ▸ hs)
      rw [dedupByIdAux_cons_mem seen e es hs, ih seen i hni]
      simp [List.find?_cons, hne]
    · rw [dedupByIdAux_cons_not_mem seen e es hs]
      by_cases heq : e.event_id = i
      · simp [List.find?_cons, heq]
      · have hni' : i ∉ e.event_id :: seen := by
          intro h
          rcases List.mem_cons.mp h with h1 | h2
          · exact heq h1.symm
          · exact hni h2
        simp only [List.find?_cons]
        rcases hd : (decide (e.event_id = i)) with _ | _
        · exact ih (e.event_id :: seen) i hni'
        · exact absurd (of_decide_eq_true hd) heq

theorem dedupByIdAux_ids_nodup :
    ∀ (seen : List String) (l : List StandardizedEvent),
      ((dedupByIdAux seen l).map (fun e => e.event_id)).Nodup ∧
      (∀ i ∈ (dedupByIdAux seen l).map (fun e => e.event_id), i ∉ seen) := by
  intro seen l
  induction l generalizing seen with
  | nil => exact ⟨List.nodup_nil, by intro i h; cases h⟩
  | cons e es ih =>
    by_cases hs : e.event_id ∈ seen
    · rw [dedupByIdAux_cons_mem seen e es hs]
      exact ih seen
    · rcases ih (e.event_id :: seen) with ⟨ihn, ihs⟩
      rw [dedupByIdAux_cons_not_mem seen e es hs]
      rw [List.map_cons]
      constructor
      · rw [List.nodup_cons]
        refine ⟨?_, ihn⟩
        intro hmem
        exact (ihs e.event_id hmem) (List.mem_cons_self _ _)
      · intro i hmem
        rcases List.mem_cons.mp hmem with heq | hmem'
        · exact heq ▸ hs
        · intro hin
          exact (ihs i hmem') (List.mem_cons_of_mem _ hin)

theorem dedupByIdAux_mem_ids :
    ∀ (seen : List String) (l : List StandardizedEvent) (i : String),
      i ∈ l.map (fun e => e.event_id) →
      i ∈ seen ∨ i ∈ (dedupByIdAux seen l).map (fun e => e.event_id) := by
  intro seen l
  induction l generalizing seen with
  | nil => intro i h; cases h
  | cons e es ih =>
    intro i hmem
    rw [List.map_cons] at hmem
    rcases List.mem_cons.mp hmem with heq | hmem'
    · by_cases hs : e.event_id ∈ seen
      · left; exact heq ▸ hs
      · right
        rw [dedupByIdAux_cons_not_mem seen e es hs, List.map_cons]
        exact heq ▸ List.mem_cons_self _ _
    · by_cases hs : e.event_id ∈ seen
      · rw [dedupByIdAux_cons_mem seen e es hs]
        exact ih seen i hmem'
      · rcases ih (e.event_id :: seen) i hmem' with hc | hm
        · rcases List.mem_cons.mp hc with h1 | h2
          · right
            rw [dedupByIdAux_cons_not_mem seen e es hs, List.map_cons]
            exact h1 ▸ List.mem_cons_self _ _
          · left; exact h2
        · right
          rw [dedupByIdAux_cons_not_mem seen e es hs, List.map_cons]
          exact List.mem_cons_of_mem _ hm

theorem dedupByIdAux_all_seen :
    ∀ (seen : List String) (l : List StandardizedEvent),
      (∀ e ∈ l, e.event_id ∈ seen) →
      dedupByIdAux seen l = [] := by
  intro seen l
  induction l generalizing seen with
  | nil => intro _; rfl
  | cons e es ih =>
    intro h
    rw [dedupByIdAux_cons_mem seen e es (h e (List.mem_cons_self e es))]
    exact ih seen (fun x hx => h x (List.mem_cons_of_mem e hx))

theorem dedupByIdAux_append_absorb :
    ∀ (seen : List String) (l extra : List StandardizedEvent),
      ((l.map (fun e => e.event_id)).Nodup) →
      (∀ i ∈ l.map (fun e => e.event_id), i ∉ seen) →
      (∀ e ∈ extra, e.event_id ∈ seen ∨ e.event_id ∈ l.map (fun e => e.event_id)) →
      dedupByIdAux seen (l ++ extra) = l := by
  intro seen l
  induction l generalizing seen with
  | nil =>
    intro extra _ _ hx
    rw [List.nil_append]
    exact dedupByIdAux_all_seen seen extra (fun e he => by
      rcases hx e he with h | h
      · exact h
      · cases h)
  | cons e es ih =>
    intro extra hnd hseen hx
    have hs : e.event_id ∉ seen :=
      hseen e.event_id (by rw [List.map_cons]; exact List.mem_cons_self _ _)
    rw [List.cons_append, dedupByIdAux_cons_not_mem seen e (es ++ extra) hs]
    congr 1
    rw [List.map_cons] at hnd
    apply ih (e.event_id :: seen) extra (List.nodup_cons.mp hnd).2
    · intro i hi hin
      rcases List.mem_cons.mp hin with h1 | h2
      · exact (List.nodup_cons.mp hnd).1 (h1 ▸ hi)
      · exact hseen i (by rw [List.map_cons]; exact List.mem_cons_of_mem _ hi) h2
    · intro x hxm
      rcases hx x hxm with h | h
      · left; exact List.mem_cons_of_mem _ h
      · rw [List.map_cons] at h
        rcases List.mem_cons.mp h with h1 | h2
        · left; exact h1 ▸ List.mem_cons_self _ _
        · right; exact h2

/-- C3: archiving is write-once per `event_id`: merging incoming events
into a monthly archive keeps the existing record for any `event_id` already
present; the merged archive never holds duplicate `event_id`s; re-running
`archive_specific_date_data` for the same date is idempotent, and it leaves
an id-duplicate-free archive id-duplicate-free. -/
theorem archive_write_once_idempotent :
    (∀ (archive incoming : List StandardizedEvent) (i : String),
       i ∈ archive.map (fun e => e.event_id) →
       (append_to_archive archive incoming).find? (fun e => e.event_id = i) =
         archive.find? (fun e => e.event_id = i)) ∧
    (∀ archive incoming : List StandardizedEvent,
       ((append_to_archive archive incoming).map (fun e => e.event_id)).Nodup) ∧
    (∀ (d : String) (current archive : List StandardizedEvent),
       archive_specific_date_data d current (archive_specific_date_data d current archive) =
         archive_specific_date_data d current archive) ∧
    (∀ (d : String) (current archive : List StandardizedEvent),
       (archive.map (fun e => e.event_id)).Nodup →
       ((archive_specific_date_data d current archive).map (fun e => e.event_id)).Nodup) := by
  have hfind : ∀ (archive incoming : List StandardizedEvent) (i : String),
      i ∈ archive.map (fun e => e.event_id) →
      (append_to_archive archive incoming).find? (fun e => e.event_id = i) =
        archive.find? (fun e => e.event_id = i) := by
    intro archive incoming i hi
    unfold append_to_archive
    rw [dedupByIdAux_find? [] (archive ++ incoming) i (by intro h; cases h)]
    rw [List.find?_append]
    rcases List.mem_map.mp hi with ⟨e, hemem, heid⟩
    have : (archive.find? (fun e => e.event_id = i)).isSome = true :=
      List.find?_isSome.mpr ⟨e, hemem, by simpa using heid⟩
    rcases hfa : archive.find? (fun e => e.event_id = i) with _ | q
    · rw [hfa] at this; cases this
    · rw [hfa]; rfl
  have hnodup : ∀ archive incoming : List StandardizedEvent,
      ((append_to_archive archive incoming).map (fun e => e.event_id)).Nodup := by
    intro archive incoming
    exact (dedupByIdAux_ids_nodup [] (archive ++ incoming)).1
  have hidem : ∀ (d : String) (current archive : List StandardizedEvent),
      archive_specific_date_data d current (archive_specific_date_data d current archive) =
        archive_specific_date_data d current archive := by
    intro d current archive
    unfold archive_specific_date_data
    set t := (current.filter (fun e => e.event_date = d)).map
      (fun e => { e with data_status := "ARCHIVED" }) with ht
    by_cases hem : t.isEmpty
    · simp [hem]
    · simp only [hem, Bool.false_eq_true, if_false]
      unfold append_to_archive
      apply dedupByIdAux_append_absorb
      · exact (dedupByIdAux_ids_nodup [] (archive ++ t)).1
      · intro i _ hin; cases hin
      · intro e hmem
        right
        have hids : e.event_id ∈ (archive ++ t).map (fun e => e.event_id) :=
          List.mem_map.mpr ⟨e, List.mem_append_right archive hmem, rfl⟩
        rcases dedupByIdAux_mem_ids [] (archive ++ t) e.event_id hids with hc | hm
        · cases hc
        · exact hm
  refine ⟨hfind, hnodup, hidem, ?_⟩
  intro d current archive hnd
  unfold archive_specific_date_data
  by_cases hem : ((current.filter (fun e => e.event_date = d)).map
      (fun e => { e with data_status := "ARCHIVED" })).isEmpty
  · simpa [hem] using hnd
  · simpa [hem] using hnodup archive _

/-- Witness for C3: on a concrete archive already holding id `a`, merging an
incoming changed record with the same id keeps the original record first
(and hence unchanged). -/
theorem archive_write_once_idempotent_witness :
    ("a" ∈ [evA].map (fun e => e.event_id)) ∧
    (append_to_archive [evA] [{ evA with title := "changed" }]).find?
        (fun e => e.event_id = "a") =
      [evA].find? (fun e => e.event_id = "a") :=
  ⟨by decide, archive_write_once_idempotent.1 [evA] [{ evA with title := "changed" }] "a" (by decide)⟩


/-! Lemmas about the dict entries without any key-uniqueness assumption. -/

theorem foldl_dictInsert_entries (keyf : StandardizedEvent → String) :
    ∀ (l : List StandardizedEvent) (m : PyDict) (p : String × StandardizedEvent),
      p ∈ l.foldl (fun m e => dictInsert m (keyf e) e) m →
      (p.1 = keyf p.2 ∧ p.2 ∈ l) ∨ p ∈ m := by
  intro l
  induction l with
  | nil => intro m p hp; exact Or.inr hp
  | cons e es ih =>
    intro m p hp
    rw [List.foldl_cons] at hp
    rcases ih (dictInsert m (keyf e) e) p hp with ⟨hk, hmem⟩ | hin
    · exact Or.inl ⟨hk, List.mem_cons_of_mem e hmem⟩
    · unfold dictInsert at hin
      by_cases hc : m.any (fun q => q.1 = keyf e) = true
      · rw [if_pos hc] at hin
        rcases List.mem_map.mp hin with ⟨q, hq, hqe⟩
        by_cases hqk : q.1 = keyf e
        · rw [if_pos hqk] at hqe
          refine Or.inl ?_
          rw [← hqe]
          exact ⟨rfl, List.mem_cons_self e es⟩
        · rw [if_neg hqk] at hqe
          exact Or.inr (hqe ▸ hq)
      · rw [if_neg hc] at hin
        rcases List.mem_append.mp hin with h | h
        · exact Or.inr h
        · rcases List.mem_singleton.mp h with rfl
          exact Or.inl ⟨rfl, List.mem_cons_self e es⟩

theorem buildMap_entries (keyf : StandardizedEvent → String)
    (l : List StandardizedEvent) (p : String × StandardizedEvent)
    (hp : p ∈ buildMap keyf l) : p.1 = keyf p.2 ∧ p.2 ∈ l := by
  rcases foldl_dictInsert_entries keyf l [] p hp with h | h
  · exact h
  · cases h

theorem dictFind_some_contains (m : PyDict) (k : String) (p : StandardizedEvent)
    (h : dictFind m k = some p) : dictContains m k = true := by
  unfold dictFind at h
  unfold dictContains
  rcases hf : m.find? (fun q => q.1 = k) with _ | q
  · rw [hf] at h; cases h
  · rw [List.any_eq_true]
    have hq := List.find?_some hf
    exact ⟨q, List.mem_of_find?_eq_some hf, hq⟩

/-! Structure of the three classified lists — no key-uniqueness needed. -/

theorem mem_new_events_elim (keyf : StandardizedEvent → String) (today : String)
    (previous current : List StandardizedEvent) (e : StandardizedEvent)
    (h : e ∈ (detect_platform_changes keyf today previous current).new_events) :
    e ∈ current ∧
      dictContains (buildMap keyf previous) (keyf e) = false := by
  unfold detect_platform_changes at h
  simp only at h
  rcases List.mem_map.mp h with ⟨kc, hkc, hkce⟩
  rcases List.mem_filter.mp hkc with ⟨hkcm, hcond⟩
  rcases buildMap_entries keyf current kc hkcm with ⟨hk1, hk2⟩
  rcases Bool.and_eq_true_iff.mp hcond with ⟨_, hnc⟩
  subst hkce
  refine ⟨hk2, ?_⟩
  rw [← hk1]
  rcases hb : dictContains (buildMap keyf previous) kc.1 with _ | _
  · rfl
  · rw [hb] at hnc; cases hnc

theorem mem_updated_events_elim (keyf : StandardizedEvent → String) (today : String)
    (previous current : List StandardizedEvent) (e : StandardizedEvent)
    (h : e ∈ (detect_platform_changes keyf today previous current).updated_events) :
    e ∈ current ∧
      dictContains (buildMap keyf previous) (keyf e) = true := by
  unfold detect_platform_changes at h
  simp only at h
  rcases List.mem_map.mp h with ⟨kc, hkc, hkce⟩
  rcases List.mem_filter.mp hkc with ⟨hkcm, hcond⟩
  rcases buildMap_entries keyf current kc hkcm with ⟨hk1, hk2⟩
  rcases Bool.and_eq_true_iff.mp hcond with ⟨_, hm⟩
  subst hkce
  refine ⟨hk2, ?_⟩
  rw [← hk1]
  rcases hf : dictFind (buildMap keyf previous) kc.1 with _ | p
  · rw [hf] at hm; cases hm
  · exact dictFind_some_contains _ _ p hf

theorem new_updated_keys_disjoint (keyf : StandardizedEvent → String) (today : String)
    (previous current : List StandardizedEvent) (e e' : StandardizedEvent)
    (he : e ∈ (detect_platform_changes keyf today previous current).new_events)
    (he' : e' ∈ (detect_platform_changes keyf today previous current).updated_events) :
    keyf e ≠ keyf e' := by
  intro heq
  have h1 := (mem_new_events_elim keyf today previous current e he).2
  have h2 := (mem_updated_events_elim keyf today previous current e' he').2
  rw [heq, h2] at h1
  cases h1


/-- C6: after the detector's annotation pass for a run date, every event
classified new is marked `is_new=true` with `discovery_date` = run date;
every event classified updated gets `discovery_date` = run date with
`is_new` left false; every other current event is written back unchanged;
and in the annotated snapshot `is_new=true` holds only for events whose
`discovery_date` is the run date (the current snapshot arrives from the
collectors with `is_new=false` everywhere). -/
theorem mark_changes_enrichment (keyf : StandardizedEvent → String) (today : String)
    (previous current : List StandardizedEvent)
    (hfalse : ∀ e ∈ current, e.is_new = false) :
    (∀ e ∈ (detect_platform_changes keyf today previous current).new_events,
       markOne keyf today
         ((detect_platform_changes keyf today previous current).new_events.map keyf)
         ((detect_platform_changes keyf today previous current).updated_events.map keyf) e =
         { e with is_new := true, discovery_date := today } ∧
       { e with is_new := true, discovery_date := today } ∈
         mark_changes_in_new_data keyf today current
           (detect_platform_changes keyf today previous current)) ∧
    (∀ e ∈ (detect_platform_changes keyf today previous current).updated_events,
       markOne keyf today
         ((detect_platform_changes keyf today previous current).new_events.map keyf)
         ((detect_platform_changes keyf today previous current).updated_events.map keyf) e =
         { e with discovery_date := today } ∧
       { e with discovery_date := today } ∈
         mark_changes_in_new_data keyf today current
           (detect_platform_changes keyf today previous current) ∧
       ({ e with discovery_date := today } : StandardizedEvent).is_new = false) ∧
    (∀ e ∈ current,
       keyf e ∉ (detect_platform_changes keyf today previous current).new_events.map keyf →
       keyf e ∉ (detect_platform_changes keyf today previous current).updated_events.map keyf →
       markOne keyf today
         ((detect_platform_changes keyf today previous current).new_events.map keyf)
         ((detect_platform_changes keyf today previous current).updated_events.map keyf) e = e) ∧
    (∀ m ∈ mark_changes_in_new_data keyf today current
         (detect_platform_changes keyf today previous current),
       m.is_new = true → m.discovery_date = today) := by
  set ch := detect_platform_changes keyf today previous current with hch
  have hmark1 : ∀ e ∈ ch.new_events,
      markOne keyf today (ch.new_events.map keyf) (ch.updated_events.map keyf) e =
        { e with is_new := true, discovery_date := today } := by
    intro e he
    have hkin : keyf e ∈ ch.new_events.map keyf := List.mem_map_of_mem keyf he
    simp [markOne, hkin]
  have hmark2 : ∀ e ∈ ch.updated_events,
      markOne keyf today (ch.new_events.map keyf) (ch.updated_events.map keyf) e =
        { e with discovery_date := today } := by
    intro e he
    have hknot : keyf e ∉ ch.new_events.map keyf := by
      intro hin
      rcases List.mem_map.mp hin with ⟨q, hq, hqk⟩
      exact new_updated_keys_disjoint keyf today previous current q e hq he hqk
    have hkin : keyf e ∈ ch.updated_events.map keyf := List.mem_map_of_mem keyf he
    simp [markOne, hknot, hkin]
  refine ⟨?_, ?_, ?_, ?_⟩
  · intro e he
    refine ⟨hmark1 e he, ?_⟩
    have hec : e ∈ current := (mem_new_events_elim keyf today previous current e he).1
    rw [← hmark1 e he]
    exact List.mem_map_of_mem _ hec
  · intro e he
    have hec : e ∈ current := (mem_updated_events_elim keyf today previous current e he).1
    refine ⟨hmark2 e he, ?_, ?_⟩
    · rw [← hmark2 e he]
      exact List.mem_map_of_mem _ hec
    · exact hfalse e hec
  · intro e _ hn hu
    simp [markOne, hn, hu]
  · intro m hm hnew
    rcases List.mem_map.mp hm with ⟨e, he, hme⟩
    have hef : e.is_new = false := hfalse e he
    unfold markOne at hme
    by_cases h1 : (ch.new_events.map keyf).contains (keyf e) = true
    · rw [if_pos h1] at hme
      rw [← hme]
    · rw [if_neg h1] at hme
      by_cases h2 : (ch.updated_events.map keyf).contains (keyf e) = true
      · rw [if_pos h2] at hme
        rw [← hme] at hnew
        simp only at hnew
        rw [hef] at hnew
        cases hnew
      · rw [if_neg h2] at hme
        rw [← hme] at hnew
        rw [hef] at hnew
        cases hnew

/-- Witness for C6: on the concrete diff scenario the current snapshot is
all `is_new=false`, and the theorem yields the annotation of the newly
discovered event C. -/
theorem mark_changes_enrichment_witness :
    (∀ e ∈ [evA', evC], e.is_new = false) ∧
    (evC ∈ (detect_platform_changes (generate_event_key md5fix8) "2025-06-01"
        [evA, evB] [evA', evC]).new_events ∧
     { evC with is_new := true, discovery_date := "2025-06-01" } ∈
       mark_changes_in_new_data (generate_event_key md5fix8) "2025-06-01" [evA', evC]
         (detect_platform_changes (generate_event_key md5fix8) "2025-06-01"
           [evA, evB] [evA', evC])) :=
  ⟨by decide,
    by
      have hm : evC ∈ (detect_platform_changes (generate_event_key md5fix8) "2025-06-01"
          [evA, evB] [evA', evC]).new_events := by decide
      exact ⟨hm,
        ((mark_changes_enrichment (generate_event_key md5fix8) "2025-06-01"
          [evA, evB] [evA', evC] (by decide)).1 evC hm).2⟩⟩


/-! Lemmas about the stable importance-descending sort. -/

theorem insertByImportanceDesc_perm (e : StandardizedEvent) :
    ∀ l : List StandardizedEvent, (insertByImportanceDesc e l).Perm (e :: l) := by
  intro l
  induction l with
  | nil => exact List.Perm.refl _
  | cons x xs ih =>
    unfold insertByImportanceDesc
    by_cases h : importanceKey e < importanceKey x
    · rw [if_pos h]
      exact (ih.cons x).trans (List.Perm.swap e x xs)
    · rw [if_neg h]

theorem sortByImportanceDesc_perm :
    ∀ l : List StandardizedEvent, (sortByImportanceDesc l).Perm l := by
  intro l
  induction l with
  | nil => exact List.Perm.refl _
  | cons x xs ih =>
    unfold sortByImportanceDesc
    exact (insertByImportanceDesc_perm x (sortByImportanceDesc xs)).trans (ih.cons x)

theorem insertByImportanceDesc_sorted (e : StandardizedEvent)
    (l : List StandardizedEvent)
    (h : List.Pairwise (fun a b => importanceKey b ≤ importanceKey a) l) :
    List.Pairwise (fun a b => importanceKey b ≤ importanceKey a)
      (insertByImportanceDesc e l) := by
  induction l with
  | nil => exact List.pairwise_singleton _ e
  | cons x xs ih =>
    rcases List.pairwise_cons.mp h with ⟨hx, hxs⟩
    unfold insertByImportanceDesc
    by_cases hlt : importanceKey e < importanceKey x
    · rw [if_pos hlt]
      rw [List.pairwise_cons]
      refine ⟨?_, ih hxs⟩
      intro a ha
      have : a ∈ e :: xs := (insertByImportanceDesc_perm e xs).mem_iff.mp ha
      rcases List.mem_cons.mp this with rfl | hmem
      · exact le_of_lt hlt
      · exact hx a hmem
    · rw [if_neg hlt]
      rw [List.pairwise_cons]
      refine ⟨?_, h⟩
      intro a ha
      rcases List.mem_cons.mp ha with rfl | hmem
      · exact le_of_not_lt hlt
      · exact le_trans (hx a hmem) (le_of_not_lt hlt)

theorem sortByImportanceDesc_sorted :
    ∀ l : List StandardizedEvent,
      List.Pairwise (fun a b => importanceKey b ≤ importanceKey a)
        (sortByImportanceDesc l) := by
  intro l
  induction l with
  | nil => exact List.Pairwise.nil
  | cons x xs ih =>
    unfold sortByImportanceDesc
    exact insertByImportanceDesc_sorted x (sortByImportanceDesc xs) ih

theorem insertByImportanceDesc_filter (e : StandardizedEvent)
    (l : List StandardizedEvent) (k : Int) :
    (insertByImportanceDesc e l).filter (fun a => importanceKey a = k) =
      if importanceKey e = k then e :: l.filter (fun a => importanceKey a = k)
      else l.filter (fun a => importanceKey a = k) := by
  induction l with
  | nil =>
    unfold insertByImportanceDesc
    by_cases hk : importanceKey e = k
    · simp [List.filter, hk]
    · simp [List.filter, hk]
  | cons x xs ih =>
    unfold insertByImportanceDesc
    by_cases hlt : importanceKey e < importanceKey x
    · rw [if_pos hlt]
      by_cases hk : importanceKey e = k
      · have hxk : ¬ (importanceKey x = k) := by
          intro hxk
          rw [← hk] at hxk
          exact absurd hxk (ne_of_gt hlt)
        simp only [List.filter_cons, ih]
        simp [hk, hxk]
      · simp only [List.filter_cons, ih]
        simp [hk]
    · rw [if_neg hlt]
      by_cases hk : importanceKey e = k
      · simp [List.filter_cons, hk]
      · simp [List.filter_cons, hk]

theorem sortByImportanceDesc_stable :
    ∀ (l : List StandardizedEvent) (k : Int),
      (sortByImportanceDesc l).filter (fun a => importanceKey a = k) =
        l.filter (fun a => importanceKey a = k) := by
  intro l
  induction l with
  | nil => intro k; rfl
  | cons x xs ih =>
    intro k
    unfold sortByImportanceDesc
    rw [insertByImportanceDesc_filter]
    by_cases hk : importanceKey x = k
    · rw [if_pos hk, ih k]
      simp [List.filter_cons, hk]
    · rw [if_neg hk, ih k]
      simp [List.filter_cons, hk]


/-- C9: the Change Report's `top_new_events` has at most 10 entries; it is
the prefix of the stable importance-descending sort of the run's newly
classified events in their report (discovery) order, so it is sorted by
importance descending with ties keeping the original order (the filter
identity states stability: events of each importance keep their relative
order); and each entry carries exactly the five fields platform, date,
title, importance, country of a new event of the run. -/
theorem generate_change_report_top_new_events
    (all_changes : List (String × PlatformChanges)) :
    ((generate_change_report all_changes).top_new_events.length ≤ 10) ∧
    (List.Pairwise (fun t u : TopNewEvent => u.importance.getD 0 ≤ t.importance.getD 0)
      (generate_change_report all_changes).top_new_events) ∧
    ((sortByImportanceDesc ((all_changes.map (fun pc => pc.2.new_events)).flatten)).Perm
      ((all_changes.map (fun pc => pc.2.new_events)).flatten)) ∧
    (∀ k : Int,
      (sortByImportanceDesc ((all_changes.map (fun pc => pc.2.new_events)).flatten)).filter
          (fun a => importanceKey a = k) =
        ((all_changes.map (fun pc => pc.2.new_events)).flatten).filter
          (fun a => importanceKey a = k)) ∧
    ((generate_change_report all_changes).top_new_events =
      ((sortByImportanceDesc ((all_changes.map (fun pc => pc.2.new_events)).flatten)).take
        10).map (fun e => ⟨e.platform, e.event_date, e.title, e.importance, e.country⟩)) ∧
    (∀ t ∈ (generate_change_report all_changes).top_new_events,
      ∃ e ∈ (all_changes.map (fun pc => pc.2.new_events)).flatten,
        t = ⟨e.platform, e.event_date, e.title, e.importance, e.country⟩) := by
  set allNew := (all_changes.map (fun pc => pc.2.new_events)).flatten with hallNew
  refine ⟨?_, ?_, sortByImportanceDesc_perm allNew,
    sortByImportanceDesc_stable allNew, rfl, ?_⟩
  · show (((sortByImportanceDesc allNew).take 10).map _).length ≤ 10
    rw [List.length_map]
    exact List.length_take_le 10 _
  · show List.Pairwise _ (((sortByImportanceDesc allNew).take 10).map _)
    rw [List.pairwise_map]
    have hsorted := sortByImportanceDesc_sorted allNew
    have htake := hsorted.sublist (List.take_sublist 10 (sortByImportanceDesc allNew))
    exact htake.imp (fun h => h)
  · intro t ht
    rcases List.mem_map.mp ht with ⟨e, hemem, hte⟩
    have : e ∈ sortByImportanceDesc allNew :=
      List.mem_of_mem_take hemem
    exact ⟨e, (sortByImportanceDesc_perm allNew).mem_iff.mp this, hte.symm⟩

/-- Witness for C9: on a concrete single-platform change set, the first
entry of `top_new_events` is the projection of a new event of the run. -/
theorem generate_change_report_top_new_events_witness :
    (({ platform := "cls", date := "2025-07-01", title := "D",
        importance := none, country := none } : TopNewEvent) ∈
      (generate_change_report [("cls", ⟨[evD, evA], [], []⟩)]).top_new_events) ∧
    (∃ e ∈ (([("cls", (⟨[evD, evA], [], []⟩ : PlatformChanges))].map
        (fun pc => pc.2.new_events)).flatten),
      ({ platform := "cls", date := "2025-07-01", title := "D",
         importance := none, country := none } : TopNewEvent) =
        ⟨e.platform, e.event_date, e.title, e.importance, e.country⟩) :=
  ⟨by decide,
    (generate_change_report_top_new_events [("cls", ⟨[evD, evA], [], []⟩)]).2.2.2.2.2
      { platform := "cls", date := "2025-07-01", title := "D",
        importance := none, country := none } (by decide)⟩


/-! For the dedup-key uniqueness analysis: decomposing a
`date ++ "_" ++ hash` key when the hash part has the digest's fixed
length. -/

theorem key_decomp (d1 h1 d2 h2 : String) (hl1 : h1.length = 8) (hl2 : h2.length = 8)
    (heq : d1 ++ "_" ++ h1 = d2 ++ "_" ++ h2) : d1 = d2 ∧ h1 = h2 := by
  have hdata : (d1.data ++ ('_' :: [])) ++ h1.data = (d2.data ++ ('_' :: [])) ++ h2.data := by
    have := String.ext_iff.mp heq
    simpa [String.data_append] using this
  have hlen : h1.data.length = h2.data.length := by
    have e1 : h1.data.length = h1.length := rfl
    have e2 : h2.data.length = h2.length := rfl
    rw [e1, e2, hl1, hl2]
  rcases List.append_inj' hdata hlen with ⟨hleft, hright⟩
  have hd : d1.data = d2.data :=
    (List.append_inj' hleft rfl).1
  exact ⟨String.ext hd, String.ext hright⟩

theorem generate_event_key_ths (md5_8 : String → String) (e : StandardizedEvent)
    (h : e.platform = "tonghuashun") :
    generate_event_key md5_8 e = e.event_date ++ "_" ++ md5_8 e.title := by
  unfold generate_event_key
  rw [h]
  simp

/-- Counterexample to C5: a tonghuashun feed day that lists the same title
twice yields a snapshot with two distinct events (their `event_id`s carry
the row index and differ) that share one dedup key, so dedup keys are not
unique within every snapshot a collection run can produce. -/
theorem tonghuashun_dedup_key_collision :
    ((get_tonghuashun_month_data md5fix8 [thsDupDay] "2025-06-01" "2025-06-30").map
        (generate_event_key md5fix8) =
      ["2025-06-05_AAA00000", "2025-06-05_AAA00000"]) ∧
    ¬ (((get_tonghuashun_month_data md5fix8 [thsDupDay] "2025-06-01" "2025-06-30").map
        (generate_event_key md5fix8)).Nodup) ∧
    (((get_tonghuashun_month_data md5fix8 [thsDupDay] "2025-06-01" "2025-06-30").map
        (fun e => e.event_id)).Nodup) := by
  refine ⟨by decide, ?_, by decide⟩
  decide

/-- C5 (amended): within one snapshot of tonghuashun events, dedup keys are
unique provided no two events share both their `event_date` and the
truncated (8-character) md5 of their title; the collector itself does not
guarantee that proviso (see the collision counterexample). -/
theorem generate_event_key_unique_amended (md5_8 : String → String)
    (hlen : ∀ s : String, (md5_8 s).length = 8)
    (evs : List StandardizedEvent)
    (hplat : ∀ e ∈ evs, e.platform = "tonghuashun")
    (hpair : List.Pairwise
      (fun a b => ¬ (a.event_date = b.event_date ∧ md5_8 a.title = md5_8 b.title)) evs) :
    (evs.map (generate_event_key md5_8)).Nodup := by
  show List.Pairwise _ (evs.map (generate_event_key md5_8))
  rw [List.pairwise_map]
  refine hpair.imp_of_mem ?_
  intro a b ha hb hne heq
  rw [generate_event_key_ths md5_8 a (hplat a ha),
      generate_event_key_ths md5_8 b (hplat b hb)] at heq
  exact hne ⟨(key_decomp _ _ _ _ (hlen a.title) (hlen b.title) heq).1,
    (key_decomp _ _ _ _ (hlen a.title) (hlen b.title) heq).2⟩

/-- Witness for the amended C5: with the constant 8-character digest
stand-in and two tonghuashun events on different dates, all hypotheses hold
and the keys are distinct. -/
theorem generate_event_key_unique_amended_witness :
    (∀ s : String, (md5const s).length = 8) ∧
    (∀ e ∈ [({ platform := "tonghuashun", event_id := "t1", original_id := "o1",
               event_date := "2025-06-05", title := "X" } : StandardizedEvent),
            ({ platform := "tonghuashun", event_id := "t2", original_id := "o2",
               event_date := "2025-06-06", title := "X" } : StandardizedEvent)],
       e.platform = "tonghuashun") ∧
    (([({ platform := "tonghuashun", event_id := "t1", original_id := "o1",
          event_date := "2025-06-05", title := "X" } : StandardizedEvent),
       ({ platform := "tonghuashun", event_id := "t2", original_id := "o2",
          event_date := "2025-06-06", title := "X" } : StandardizedEvent)].map
        (generate_event_key md5const)).Nodup) :=
  ⟨fun _ => rfl, by decide,
    generate_event_key_unique_amended md5const (fun _ => rfl) _ (by decide)
      (by decide)⟩

/-- C4 is violated by the code: `_process_eastmoney_xsap` and
`_process_eastmoney_hsgg` feed the builtin `hash()` — whose value for a
`str` depends on the per-process hash salt — into `event_id`, so the same
source item yields different `event_id`s under two different process hash
functions; `event_id` is therefore not a function of stable source fields
alone. -/
theorem eastmoney_event_id_process_dependent :
    ((process_eastmoney_xsap (fun _ => (0 : Int)) [xsapItem0] "2025-01-01" "2025-12-31").map
        (fun e => e.event_id) = ["em_xsap_20250101_0"]) ∧
    ((process_eastmoney_xsap (fun _ => (1 : Int)) [xsapItem0] "2025-01-01" "2025-12-31").map
        (fun e => e.event_id) = ["em_xsap_20250101_1"]) ∧
    ((process_eastmoney_xsap (fun _ => (0 : Int)) [xsapItem0] "2025-01-01" "2025-12-31").map
        (fun e => e.event_id) ≠
      (process_eastmoney_xsap (fun _ => (1 : Int)) [xsapItem0] "2025-01-01" "2025-12-31").map
        (fun e => e.event_id)) ∧
    ((process_eastmoney_hsgg (fun _ => (0 : Int)) [hsggItem0] "2025-01-01" "2025-12-31").map
        (fun e => e.event_id) ≠
      (process_eastmoney_hsgg (fun _ => (1 : Int)) [hsggItem0] "2025-01-01" "2025-12-31").map
        (fun e => e.event_id)) := by
  refine ⟨by decide, by decide, by decide, by decide⟩

/-- C7: a first run on a state with no platform snapshot succeeds, persists
the collected data directly as the current tier, writes no change report
(there is none afterwards if there was none before — no diff is computed),
leaves every persisted event `is_new=false` (the collectors construct all
events that way), and writes a marker recording the first-run date. -/
theorem run_first_time_baseline_free (today now : String)
    (future_data : List (String × List StandardizedEvent)) (s : SchedulerState)
    (hfirst : is_first_run s = true)
    (hreport : s.changeReport = none)
    (hcol : ∀ pe ∈ future_data, ∀ e ∈ pe.2, e.is_new = false) :
    ((run_first_time today now future_data s).1 = true) ∧
    ((run_first_time today now future_data s).2.currentData = future_data) ∧
    ((run_first_time today now future_data s).2.changeReport = none) ∧
    (∀ pe ∈ (run_first_time today now future_data s).2.currentData,
      ∀ e ∈ pe.2, e.is_new = false) ∧
    ((run_first_time today now future_data s).2.marker =
      some ⟨today, now, "completed"⟩) := by
  unfold run_first_time
  rw [if_pos hfirst]
  exact ⟨rfl, rfl, hreport, hcol, rfl⟩

/-- Witness for C7: a concrete empty deployment and a one-platform
collection; the run reports success and the resulting state holds the data
with no change report. -/
theorem run_first_time_baseline_free_witness :
    (is_first_run ⟨[], none, none⟩ = true ∧
     (⟨[], none, none⟩ : SchedulerState).changeReport = none ∧
     (∀ pe ∈ [("cls", [evA])], ∀ e ∈ pe.2, e.is_new = false)) ∧
    ((run_first_time "2025-06-01" "2025-06-01T06:00:00" [("cls", [evA])]
        ⟨[], none, none⟩).1 = true ∧
     (run_first_time "2025-06-01" "2025-06-01T06:00:00" [("cls", [evA])]
        ⟨[], none, none⟩).2.changeReport = none) :=
  ⟨⟨rfl, rfl, by decide⟩,
    ⟨(run_first_time_baseline_free "2025-06-01" "2025-06-01T06:00:00" [("cls", [evA])]
        ⟨[], none, none⟩ rfl rfl (by decide)).1,
     (run_first_time_baseline_free "2025-06-01" "2025-06-01T06:00:00" [("cls", [evA])]
        ⟨[], none, none⟩ rfl rfl (by decide)).2.2.1⟩⟩

end InvestmentCalendar
